import Mathlib

/-!
FinTrack personal-finance analytics — verification of the core engine.

Shallow embedding of the derived-metrics / snapshot-history core of
src/src/App.jsx.  JavaScript numbers are modelled as rationals (ℚ);
JavaScript values reaching the snapshot normalizer are modelled by the
inductive type JSValue; the impure ingredients makeId() and Date.now()
are passed in as explicit parameters (freshId, now).  Array.prototype.sort
(stable in modern engines) is modelled by a stable insertion sort over the
comparator's precedes-or-ties predicate; for the total, transitive
comparators this code sorts with, the stable sorted result is unique.
-/

namespace FinTrack

/-- An untyped JavaScript value, as it can appear after JSON.parse of the
persisted blob (plus undefined/NaN, which arise from property access and
arithmetic).  Objects are ordered field lists; duplicate keys are resolved
to the last occurrence, as JSON.parse does. -/
inductive JSValue : Type where
  | null
  | undefined
  | nan
  | bool (b : Bool)
  | num (q : ℚ)
  | str (s : String)
  | arr (elems : List JSValue)
  | obj (fields : List (String × JSValue))

/-- Numeric value of a list of decimal digit characters. -/
def digitsVal (cs : List Char) : ℕ :=
  cs.foldl (fun n c => 10 * n + (c.toNat - '0'.toNat)) 0

/-- JavaScript String.prototype.trim, over the character list. -/
def trimChars (cs : List Char) : List Char :=
  ((cs.dropWhile Char.isWhitespace).reverse.dropWhile Char.isWhitespace).reverse

/-- JavaScript String.prototype.trim. -/
def jsTrim (s : String) : String :=
  String.mk (trimChars s.data)

/-- Lexicographic strict order on character lists by code point; models the
result of String.prototype.localeCompare on the plain ASCII strings (months,
names) this dashboard compares. -/
def charListLt : List Char → List Char → Bool
  | [], [] => false
  | [], _ :: _ => true
  | _ :: _, [] => false
  | a :: as, b :: bs =>
    if a.toNat < b.toNat then true
    else if b.toNat < a.toNat then false
    else charListLt as bs

/-- Strict string order (localeCompare < 0). -/
def strLt (a b : String) : Bool :=
  charListLt a.data b.data

/-- JavaScript String.prototype.toLowerCase (ASCII range). -/
def jsToLower (s : String) : String :=
  String.mk (s.data.map fun c =>
    if 'A' ≤ c ∧ c ≤ 'Z' then Char.ofNat (c.toNat + 32) else c)

/-- JavaScript Number(string): the string is trimmed; the empty (trimmed)
string converts to 0; an optionally minus-signed decimal integer string
converts to its value.  Every other string is treated as NaN (result none).
This covers the integer-string inputs the dashboard's form fields produce;
fractional/exponent/hex syntax is outside the modelled subset. -/
def strToNumber (s : String) : Option ℚ :=
  let t := trimChars s.data
  if t = [] then some 0
  else if t.all (fun c => c.isDigit) then some ((digitsVal t : ℤ) : ℚ)
  else
    match t with
    | '-' :: rest =>
      if rest ≠ [] ∧ rest.all (fun c => c.isDigit) then some (-((digitsVal rest : ℤ) : ℚ))
      else none
    | _ => none

/-- JavaScript typeof. -/
def jsTypeof : JSValue → String
  | .null => "object"
  | .undefined => "undefined"
  | .nan => "number"
  | .bool _ => "boolean"
  | .num _ => "number"
  | .str _ => "string"
  | .arr _ => "object"
  | .obj _ => "object"

/-- JavaScript truthiness. -/
def truthy : JSValue → Bool
  | .null => false
  | .undefined => false
  | .nan => false
  | .bool b => b
  | .num q => decide (q ≠ 0)
  | .str s => decide (s ≠ "")
  | .arr _ => true
  | .obj _ => true

mutual

/-- JavaScript String(value) conversion.  Arrays stringify as their
elements joined by commas (null/undefined elements become empty strings,
per Array.prototype.join); plain objects as "[object Object]". -/
def jsToString : JSValue → String
  | .null => "null"
  | .undefined => "undefined"
  | .nan => "NaN"
  | .bool b => if b then "true" else "false"
  | .num q => if q.den = 1 then toString q.num else toString q
  | .str s => s
  | .arr es => String.intercalate "," (jsElemStrings es)
  | .obj _ => "[object Object]"

/-- Element strings for Array.prototype.join. -/
def jsElemStrings : List JSValue → List String
  | [] => []
  | .null :: es => "" :: jsElemStrings es
  | .undefined :: es => "" :: jsElemStrings es
  | e :: es => jsToString e :: jsElemStrings es

end

/-- JavaScript Number(value); none models NaN. Objects and arrays convert
via their string form (ToPrimitive), so Number([]) = 0 and Number([5]) = 5. -/
def jsToNumber : JSValue → Option ℚ
  | .null => some 0
  | .undefined => none
  | .nan => none
  | .bool b => some (if b then 1 else 0)
  | .num q => some q
  | .str s => strToNumber s
  | .arr es => strToNumber (jsToString (.arr es))
  | .obj fs => strToNumber (jsToString (.obj fs))

/-- The JavaScript pattern Number(v) or-else d, i.e. Number(v) falsy
(NaN or 0) yields the default d. -/
def numOrD (v : JSValue) (d : ℚ) : ℚ :=
  match jsToNumber v with
  | some q => if q = 0 then d else q
  | none => d

/-- Property access v.key (also the optional-chained v?.key: both yield
undefined on null/undefined and on every non-object).  Duplicate keys
resolve to the last occurrence. -/
def getField (v : JSValue) (key : String) : JSValue :=
  match v with
  | .obj fields =>
    match fields.reverse.find? (fun p => p.1 = key) with
    | some p => p.2
    | none => .undefined
  | _ => .undefined

/-- A normalized expense category: {name, amount} with amount a number. -/
structure Category where
  name : String
  amount : ℚ
deriving DecidableEq

/-- A normalized history snapshot (the shape normalizeSnapshot guarantees). -/
structure Snapshot where
  id : String
  month : String
  income : ℚ
  targetSavings : ℚ
  categories : List Category
  totalExpense : ℚ
  savings : ℚ
  savingsRate : ℚ
  createdAt : ℚ
deriving DecidableEq

/-- The category coercion inside normalizeSnapshot (App.jsx lines 47–50):
name is String(category?.name or-else the empty string) trimmed, amount is
Number(category?.amount) or-else 0. -/
def normalizeCategoryEntry (category : JSValue) : Category :=
  { name := jsTrim (jsToString
      (if truthy (getField category "name") then getField category "name" else .str "")),
    amount := numOrD (getField category "amount") 0 }

/-- normalizeSnapshot (App.jsx lines 42–65).  freshId stands for makeId()
and now for Date.now(), the two impure ingredients. -/
def normalizeSnapshot (freshId : String) (now : ℚ) (snapshot : JSValue) : Option Snapshot :=
  if ¬ truthy snapshot ∨ jsTypeof snapshot ≠ "object" then none
  else
    let normalizedCategories :=
      match getField snapshot "categories" with
      | .arr cats =>
        (cats.map normalizeCategoryEntry).filter (fun category => category.name ≠ "")
      | _ => []
    some {
      id :=
        match getField snapshot "id" with
        | .str s => if s ≠ "" then s else freshId
        | _ => freshId,
      month :=
        match getField snapshot "month" with
        | .str s => s
        | _ => "",
      income := numOrD (getField snapshot "income") 0,
      targetSavings := numOrD (getField snapshot "targetSavings") 0,
      categories := normalizedCategories,
      totalExpense := numOrD (getField snapshot "totalExpense") 0,
      savings := numOrD (getField snapshot "savings") 0,
      savingsRate := numOrD (getField snapshot "savingsRate") 0,
      createdAt := numOrD (getField snapshot "createdAt") now }

/-- The persisted localStorage blob under the fintrack history key:
absent (no key, or empty string — both falsy raw reads), present but not
valid JSON, or a parsed JSON value. -/
inductive StoredBlob : Type where
  | absent
  | unparseable
  | value (v : JSValue)

/-- loadHistoryFromStorage (App.jsx lines 67–82), returning the loaded
collection together with the blob state after the call (the catch branch
rewrites the blob to the empty array).  fid i models the makeId() call made
while normalizing element i. -/
def loadHistoryFromStorage (fid : ℕ → String) (now : ℚ) :
    StoredBlob → List Snapshot × StoredBlob
  | .absent => ([], .absent)
  | .unparseable => ([], .value (.arr []))
  | .value (.arr elems) =>
      (((elems.enum.map (fun p => normalizeSnapshot (fid p.1) now p.2)).filterMap id).filter
        (fun s => s.month ≠ ""), .value (.arr elems))
  | .value _ => ([], .value (.arr []))

/-- Insert a in front of the first element b with le a b; keeps a sorted
list sorted and puts a before every element it ties with that originally
came after it. -/
def orderedInsert (le : α → α → Bool) (a : α) : List α → List α
  | [] => [a]
  | b :: bs => if le a b then a :: b :: bs else b :: orderedInsert le a bs

/-- Stable sort modelling Array.prototype.sort with a comparator whose
precedes-or-ties predicate is le (le a b ↔ comparator a b ≤ 0). -/
def stableSort (le : α → α → Bool) : List α → List α
  | [] => []
  | a :: as => orderedInsert le a (stableSort le as)

/-- byMostRecentMonth (App.jsx lines 84–88) as a sort-precedes predicate:
le a b holds when the comparator value b.month.localeCompare(a.month) or
b.createdAt − a.createdAt is ≤ 0, i.e. a may come before b. -/
def byMostRecentMonthLe (a b : Snapshot) : Bool :=
  strLt b.month a.month ||
    (decide (b.month = a.month) && decide (b.createdAt ≤ a.createdAt))

/-- The trendData comparator (App.jsx line 162) as a sort-precedes
predicate: month ascending, ties broken by createdAt ascending. -/
def trendLe (a b : Snapshot) : Bool :=
  strLt a.month b.month ||
    (decide (a.month = b.month) && decide (a.createdAt ≤ b.createdAt))

/-- A category row of the active input session: the amount is still the
raw string the form field holds. -/
structure SessionCategory where
  name : String
  amount : String
deriving DecidableEq

/-- The derived FinancialTotals record. -/
structure Totals where
  categoryTotals : List Category
  totalExpense : ℚ
  savings : ℚ
  savingsRate : ℚ
  highestCategory : Category
deriving DecidableEq

/-- The highestCategory reduce of the Metrics Engine (App.jsx lines
111–114): keep the current entry only when strictly greater, starting from
the sentinel. -/
def highestCategory (categoryTotals : List Category) : Category :=
  categoryTotals.foldl
    (fun highest current => if highest.amount < current.amount then current else highest)
    { name := "N/A", amount := 0 }

/-- The totals memo of the Metrics Engine (App.jsx lines 99–123), including
the parsedIncome coercion Number(income) or 0. -/
def totals (income : String) (categories : List SessionCategory) : Totals :=
  let parsedIncome := numOrD (.str income) 0
  let categoryTotals := categories.map (fun category =>
    ({ name := category.name, amount := numOrD (.str category.amount) 0 } : Category))
  let totalExpense := categoryTotals.foldl (fun sum category => sum + category.amount) 0
  let savings := parsedIncome - totalExpense
  let savingsRate := if 0 < parsedIncome then savings / parsedIncome * 100 else 0
  { categoryTotals := categoryTotals, totalExpense := totalExpense, savings := savings,
    savingsRate := savingsRate, highestCategory := highestCategory categoryTotals }

/-- The JavaScript test Number(s) < 0 on a raw field string (false when
Number(s) is NaN). -/
def numLt0 (s : String) : Bool :=
  match strToNumber s with
  | some q => decide (q < 0)
  | none => false

/-- validationErrors (App.jsx lines 125–143): negative-value messages for
income, target savings, then each category, in order; empty-string fields
are exempt. -/
def validationErrors (income targetSavings : String) (categories : List SessionCategory) :
    List String :=
  (if income ≠ "" ∧ numLt0 income then ["Monthly income cannot be negative."] else []) ++
  (if targetSavings ≠ "" ∧ numLt0 targetSavings then ["Target savings cannot be negative."] else []) ++
  categories.filterMap (fun category =>
    if category.amount ≠ "" ∧ numLt0 category.amount then
      some (category.name ++ " expense cannot be negative.")
    else none)

/-- The snapshot object built by handleSaveSnapshot (App.jsx lines 203–213)
for a given id. -/
def builtSnapshot (id selectedMonth income targetSavings : String)
    (categories : List SessionCategory) (now : ℚ) : Snapshot :=
  let t := totals income categories
  { id := id, month := selectedMonth,
    income := numOrD (.str income) 0,
    targetSavings := numOrD (.str targetSavings) 0,
    categories := t.categoryTotals,
    totalExpense := t.totalExpense,
    savings := t.savings,
    savingsRate := t.savingsRate,
    createdAt := now }

/-- handleSaveSnapshot (App.jsx lines 186–222) acting on the history list.
confirm is the caller's answer to the duplicate-month overwrite dialog
(only consulted when a snapshot for the month exists); freshId models
makeId() and now models Date.now().  The rejection branches (empty month,
validation errors, declined confirmation) return the history unchanged. -/
def handleSaveSnapshot (selectedMonth income targetSavings : String)
    (categories : List SessionCategory) (confirm : Bool) (freshId : String) (now : ℚ)
    (history : List Snapshot) : List Snapshot :=
  if selectedMonth = "" then history
  else if validationErrors income targetSavings categories ≠ [] then history
  else
    match history.find? (fun snapshot => snapshot.month = selectedMonth) with
    | some existing =>
      if confirm then
        let snap := builtSnapshot existing.id selectedMonth income targetSavings categories now
        stableSort byMostRecentMonthLe
          (history.map (fun entry => if entry.id = existing.id then snap else entry))
      else history
    | none =>
      let snap := builtSnapshot freshId selectedMonth income targetSavings categories now
      stableSort byMostRecentMonthLe (snap :: history)

/-- handleDeleteSnapshot (App.jsx lines 232–234). -/
def handleDeleteSnapshot (snapshotId : String) (history : List Snapshot) : List Snapshot :=
  history.filter (fun snapshot => snapshot.id ≠ snapshotId)

/-- handleClearHistory (App.jsx lines 236–243): no-op on an empty history;
otherwise clears only when the caller confirms. -/
def handleClearHistory (confirm : Bool) (history : List Snapshot) : List Snapshot :=
  if history = [] then history
  else if confirm then [] else history

/-- trendData (App.jsx lines 161–163): history sorted by month ascending,
ties by createdAt ascending, projected to (month, savings) pairs. -/
def trendData (history : List Snapshot) : List (String × ℚ) :=
  (stableSort trendLe history).map (fun snapshot => (snapshot.month, snapshot.savings))

/-- updateCategoryAmount (App.jsx lines 168–170): the JS indexed map
previous.map((category, i) => i === index ? {...category, amount: value}
: category), rendered as structural recursion on the list. -/
def updateCategoryAmount (index : ℕ) (value : String) :
    List SessionCategory → List SessionCategory
  | [] => []
  | category :: rest =>
    match index with
    | 0 => { category with amount := value } :: rest
    | i + 1 => category :: updateCategoryAmount i value rest

/-- removeCategory (App.jsx lines 172–174): the JS indexed filter
previous.filter((_, i) => i !== index), which drops exactly the entry at
the given index, rendered as structural recursion on the list. -/
def removeCategory (index : ℕ) : List SessionCategory → List SessionCategory
  | [] => []
  | category :: rest =>
    match index with
    | 0 => rest
    | i + 1 => category :: removeCategory i rest

/-- addCategory (App.jsx lines 176–184) acting on the category list:
rejects an empty trimmed name and a case-insensitive duplicate, otherwise
appends the trimmed name with an empty raw amount. -/
def addCategory (newCategory : String) (categories : List SessionCategory) :
    List SessionCategory :=
  let cleanName := jsTrim newCategory
  if cleanName = "" then categories
  else if categories.any (fun category => jsToLower category.name = jsToLower cleanName) then
    categories
  else categories ++ [{ name := cleanName, amount := "" }]


/-- The claim predicate of C7: the category is the first one in input
order whose amount is strictly greater than every earlier amount and not
less than any later amount. -/
def IsFirstMax (c : Category) (cats : List Category) : Prop :=
  ∃ pre post, cats = pre ++ c :: post ∧
    (∀ e ∈ pre, e.amount < c.amount) ∧ (∀ e ∈ post, e.amount ≤ c.amount)

/-- Whether a JavaScript value is an object in the object-or-array sense
(null is not an object, despite its typeof). -/
def isJsObject : JSValue → Bool
  | .arr _ => true
  | .obj _ => true
  | _ => false

/-- The JSON shape of a persisted category entry. -/
def categoryToJS (c : Category) : JSValue :=
  .obj [("name", .str c.name), ("amount", .num c.amount)]

/-- The JSON shape of a persisted snapshot record, as handleSaveSnapshot
builds it and JSON.stringify/JSON.parse round-trip it. -/
def snapshotToJS (s : Snapshot) : JSValue :=
  .obj [("id", .str s.id), ("month", .str s.month), ("income", .num s.income),
    ("targetSavings", .num s.targetSavings),
    ("categories", .arr (s.categories.map categoryToJS)),
    ("totalExpense", .num s.totalExpense), ("savings", .num s.savings),
    ("savingsRate", .num s.savingsRate), ("createdAt", .num s.createdAt)]

/-- Whether a JavaScript value is an array. -/
def isJsArray : JSValue → Bool
  | .arr _ => true
  | _ => false

/-! ## Helper lemmas -/

theorem orderedInsert_perm (le : α → α → Bool) (a : α) (l : List α) :
    List.Perm (orderedInsert le a l) (a :: l) := by
  induction l with
  | nil => exact List.Perm.refl _
  | cons b bs ih =>
    by_cases h : le a b
    · simp [orderedInsert, h]
    · simp only [orderedInsert, h, Bool.false_eq_true, if_false]
      exact (ih.cons b).trans (List.Perm.swap a b bs)

theorem stableSort_perm (le : α → α → Bool) (l : List α) :
    List.Perm (stableSort le l) l := by
  induction l with
  | nil => exact List.Perm.refl _
  | cons a as ih =>
    exact (orderedInsert_perm le a (stableSort le as)).trans (ih.cons a)

theorem mem_orderedInsert {le : α → α → Bool} {a x : α} {l : List α} :
    x ∈ orderedInsert le a l ↔ x = a ∨ x ∈ l := by
  rw [(orderedInsert_perm le a l).mem_iff, List.mem_cons]

theorem pairwise_orderedInsert (le : α → α → Bool)
    (total : ∀ a b, le a b = true ∨ le b a = true)
    (trans : ∀ a b c, le a b = true → le b c = true → le a c = true)
    (a : α) (l : List α) (h : l.Pairwise (fun x y => le x y = true)) :
    (orderedInsert le a l).Pairwise (fun x y => le x y = true) := by
  induction l with
  | nil => simp [orderedInsert]
  | cons b bs ih =>
    rcases List.pairwise_cons.mp h with ⟨hb, hbs⟩
    by_cases hab : le a b
    · simp only [orderedInsert, hab, if_true]
      refine List.pairwise_cons.mpr ⟨?_, h⟩
      intro x hx
      rcases List.mem_cons.mp hx with rfl | hx
      · exact hab
      · exact trans a b x hab (hb x hx)
    · simp only [orderedInsert, hab, Bool.false_eq_true, if_false]
      refine List.pairwise_cons.mpr ⟨?_, ih hbs⟩
      intro x hx
      rcases mem_orderedInsert.mp hx with rfl | hx
      · rcases total b x with hbx | hxb
        · exact hbx
        · exact absurd hxb (by simpa using hab)
      · exact hb x hx

theorem stableSort_pairwise (le : α → α → Bool)
    (total : ∀ a b, le a b = true ∨ le b a = true)
    (trans : ∀ a b c, le a b = true → le b c = true → le a c = true)
    (l : List α) :
    (stableSort le l).Pairwise (fun x y => le x y = true) := by
  induction l with
  | nil => simp [stableSort]
  | cons a as ih => exact pairwise_orderedInsert le total trans a (stableSort le as) ih

theorem charListLt_trans {a b c : List Char} (hab : charListLt a b = true)
    (hbc : charListLt b c = true) : charListLt a c = true := by
  induction a generalizing b c with
  | nil =>
    cases b with
    | nil => simp [charListLt] at hab
    | cons y bs =>
      cases c with
      | nil => simp [charListLt] at hbc
      | cons z cs => simp [charListLt]
  | cons x as ih =>
    cases b with
    | nil => simp [charListLt] at hab
    | cons y bs =>
      cases c with
      | nil => simp [charListLt] at hbc
      | cons z cs =>
        simp only [charListLt] at hab hbc ⊢
        rcases Nat.lt_trichotomy x.toNat y.toNat with hxy | hxy | hxy
        · rcases Nat.lt_trichotomy y.toNat z.toNat with hyz | hyz | hyz
          · simp [Nat.lt_trans hxy hyz]
          · simp [hyz ▸ hxy]
          · simp [hyz, Nat.lt_asymm hyz] at hbc
        · rcases Nat.lt_trichotomy y.toNat z.toNat with hyz | hyz | hyz
          · simp [hxy ▸ hyz]
          · simp only [hxy, hyz] at hab hbc ⊢
            simp only [Nat.lt_irrefl, if_false] at hab hbc ⊢
            exact ih hab hbc
          · simp [hyz, Nat.lt_asymm hyz] at hbc
        · simp [hxy, Nat.lt_asymm hxy] at hab

theorem charListLt_antisymm {a b : List Char} (hab : charListLt a b = false)
    (hba : charListLt b a = false) : a = b := by
  induction a generalizing b with
  | nil =>
    cases b with
    | nil => rfl
    | cons y bs => simp [charListLt] at hab
  | cons x as ih =>
    cases b with
    | nil => simp [charListLt] at hba
    | cons y bs =>
      simp only [charListLt] at hab hba
      rcases Nat.lt_trichotomy x.toNat y.toNat with hxy | hxy | hxy
      · simp [hxy] at hab
      · have hyx : ¬ y.toNat < x.toNat := by omega
        have hxy' : ¬ x.toNat < y.toNat := by omega
        simp only [hxy', hyx, if_false] at hab hba
        have hchar : x = y := Char.ext (UInt32.ext hxy)
        rw [hchar, ih hab hba]
      · simp [hxy, Nat.lt_asymm hxy] at hba

theorem strLt_antisymm {a b : String} (hab : strLt a b = false)
    (hba : strLt b a = false) : a = b := by
  cases a with
  | mk da =>
    cases b with
    | mk db =>
      have : da = db := charListLt_antisymm hab hba
      rw [this]

theorem trendLe_total (a b : Snapshot) : trendLe a b = true ∨ trendLe b a = true := by
  unfold trendLe
  by_cases hab : strLt a.month b.month
  · left; simp [hab]
  · by_cases hba : strLt b.month a.month
    · right; simp [hba]
    · have heq : a.month = b.month :=
        strLt_antisymm (Bool.of_not_eq_true hab) (Bool.of_not_eq_true hba)
      rcases le_total a.createdAt b.createdAt with h | h
      · left; simp [heq, h]
      · right; simp [heq.symm, h]

theorem trendLe_trans (a b c : Snapshot) (hab : trendLe a b = true)
    (hbc : trendLe b c = true) : trendLe a c = true := by
  unfold trendLe at hab hbc ⊢
  rcases Bool.or_eq_true_iff.mp hab with h1 | h1
  · rcases Bool.or_eq_true_iff.mp hbc with h2 | h2
    · exact Bool.or_eq_true_iff.mpr (Or.inl (charListLt_trans h1 h2))
    · rcases Bool.and_eq_true_iff.mp h2 with ⟨h2m, _⟩
      have : b.month = c.month := of_decide_eq_true h2m
      exact Bool.or_eq_true_iff.mpr (Or.inl (this ▸ h1))
  · rcases Bool.and_eq_true_iff.mp h1 with ⟨h1m, h1t⟩
    have hm : a.month = b.month := of_decide_eq_true h1m
    rcases Bool.or_eq_true_iff.mp hbc with h2 | h2
    · exact Bool.or_eq_true_iff.mpr (Or.inl (by rw [hm]; exact h2))
    · rcases Bool.and_eq_true_iff.mp h2 with ⟨h2m, h2t⟩
      have hm2 : b.month = c.month := of_decide_eq_true h2m
      refine Bool.or_eq_true_iff.mpr (Or.inr (Bool.and_eq_true_iff.mpr ⟨?_, ?_⟩))
      · exact decide_eq_true (hm.trans hm2)
      · exact decide_eq_true (le_trans (of_decide_eq_true h1t) (of_decide_eq_true h2t))

theorem foldl_add_eq_sum (l : List Category) (a : ℚ) :
    l.foldl (fun sum category => sum + category.amount) a
      = a + (l.map (fun category => category.amount)).sum := by
  induction l generalizing a with
  | nil => simp
  | cons c cs ih =>
    simp only [List.foldl_cons, List.map_cons, List.sum_cons, ih]
    ring

/-- C1: for every income and category list whose coerced values are
nonnegative, the Metrics Engine returns totalExpense equal to the sum of
the coerced amounts, savings equal to income minus totalExpense, and
savingsRate equal to savings/income*100 when income is positive and 0 when
income is 0. -/
theorem totals_metrics (income : String) (categories : List SessionCategory)
    (hinc : 0 ≤ numOrD (.str income) 0)
    (hcat : ∀ c ∈ categories, 0 ≤ numOrD (.str c.amount) 0) :
    (totals income categories).totalExpense
        = (categories.map (fun c => numOrD (.str c.amount) 0)).sum ∧
    (totals income categories).savings
        = numOrD (.str income) 0 - (totals income categories).totalExpense ∧
    (0 < numOrD (.str income) 0 →
      (totals income categories).savingsRate
        = (totals income categories).savings / numOrD (.str income) 0 * 100) ∧
    (numOrD (.str income) 0 = 0 → (totals income categories).savingsRate = 0) := by
  refine ⟨?_, ?_, ?_, ?_⟩
  · simp only [totals]
    rw [foldl_add_eq_sum]
    simp only [zero_add, List.map_map]
    rfl
  · simp [totals]
  · intro hpos
    simp [totals, if_pos hpos]
  · intro hzero
    simp [totals, hzero]

/-- Witness for C1 at a concrete input. -/
theorem totals_metrics_witness :
    (0 ≤ numOrD (.str "1000") 0) ∧
    (∀ c ∈ ([⟨"Food", "200"⟩, ⟨"Rent", "300"⟩] : List SessionCategory),
      0 ≤ numOrD (.str c.amount) 0) ∧
    ((totals "1000" [⟨"Food", "200"⟩, ⟨"Rent", "300"⟩]).totalExpense
        = (([⟨"Food", "200"⟩, ⟨"Rent", "300"⟩] : List SessionCategory).map
            (fun c => numOrD (.str c.amount) 0)).sum ∧
      (totals "1000" [⟨"Food", "200"⟩, ⟨"Rent", "300"⟩]).savings
        = numOrD (.str "1000") 0
            - (totals "1000" [⟨"Food", "200"⟩, ⟨"Rent", "300"⟩]).totalExpense ∧
      (0 < numOrD (.str "1000") 0 →
        (totals "1000" [⟨"Food", "200"⟩, ⟨"Rent", "300"⟩]).savingsRate
          = (totals "1000" [⟨"Food", "200"⟩, ⟨"Rent", "300"⟩]).savings
              / numOrD (.str "1000") 0 * 100) ∧
      (numOrD (.str "1000") 0 = 0 →
        (totals "1000" [⟨"Food", "200"⟩, ⟨"Rent", "300"⟩]).savingsRate = 0)) :=
  ⟨by decide, by decide, totals_metrics "1000" _ (by decide) (by decide)⟩

theorem foldl_highest (l : List Category) (init : Category) :
    (l.foldl (fun highest current =>
        if highest.amount < current.amount then current else highest) init = init
      ∧ ∀ c ∈ l, c.amount ≤ init.amount) ∨
    (∃ pre c post, l = pre ++ c :: post ∧
      l.foldl (fun highest current =>
        if highest.amount < current.amount then current else highest) init = c ∧
      init.amount < c.amount ∧
      (∀ e ∈ pre, e.amount < c.amount) ∧ (∀ e ∈ post, e.amount ≤ c.amount)) := by
  induction l generalizing init with
  | nil => exact Or.inl ⟨rfl, by simp⟩
  | cons b bs ih =>
    by_cases hlt : init.amount < b.amount
    · rcases ih b with ⟨heq, hall⟩ | ⟨pre, c, post, hsplit, heq, hbc, hpre, hpost⟩
      · refine Or.inr ⟨[], b, bs, by simp, ?_, hlt, by simp, hall⟩
        simpa [hlt] using heq
      · refine Or.inr ⟨b :: pre, c, post, by simp [hsplit], ?_, lt_trans hlt hbc, ?_, hpost⟩
        · simpa [hlt] using heq
        · intro e he
          rcases List.mem_cons.mp he with rfl | he
          · exact hbc
          · exact hpre e he
    · rcases ih init with ⟨heq, hall⟩ | ⟨pre, c, post, hsplit, heq, hic, hpre, hpost⟩
      · refine Or.inl ⟨by simpa [hlt] using heq, ?_⟩
        intro x hx
        rcases List.mem_cons.mp hx with rfl | hx
        · exact le_of_not_lt hlt
        · exact hall x hx
      · refine Or.inr ⟨b :: pre, c, post, by simp [hsplit], ?_, hic, ?_, hpost⟩
        · simpa [hlt] using heq
        · intro e he
          rcases List.mem_cons.mp he with rfl | he
          · exact lt_of_le_of_lt (le_of_not_lt hlt) hic
          · exact hpre e he

/-- C7 counterexample: on the single negative-amount category list
[{name:"A", amount:-5}] the entry {name:"A", amount:-5} is the first
category whose amount strictly exceeds every earlier amount and is not
less than any later one, the list is neither empty nor all-zero, yet the
code returns the sentinel instead of that category. -/
theorem highestCategory_claim_cex :
    IsFirstMax ⟨"A", -5⟩ [⟨"A", -5⟩] ∧
    ([(⟨"A", -5⟩ : Category)] ≠ []) ∧
    ¬ (∀ c ∈ ([⟨"A", -5⟩] : List Category), c.amount = 0) ∧
    highestCategory [⟨"A", -5⟩] ≠ ⟨"A", -5⟩ :=
  ⟨⟨[], [], rfl, by simp, by simp⟩, by simp, by decide, by decide⟩

/-- C7 (amended): over coerced amounts ≥ 0, highestCategory is the first
category in input order whose amount is strictly greater than every
earlier amount and not less than any later one whenever some amount is
strictly positive, and it is the sentinel {name:"N/A", amount:0} when the
list is empty or all amounts are 0. -/
theorem highestCategory_firstMax (cats : List Category)
    (h0 : ∀ c ∈ cats, 0 ≤ c.amount) :
    ((∃ c ∈ cats, 0 < c.amount) → IsFirstMax (highestCategory cats) cats) ∧
    ((∀ c ∈ cats, c.amount = 0) → highestCategory cats = ⟨"N/A", 0⟩) := by
  constructor
  · rintro ⟨c0, hc0, hpos⟩
    rcases foldl_highest cats ⟨"N/A", 0⟩ with ⟨heq, hall⟩ | ⟨pre, c, post, hsplit, heq, hic, hpre, hpost⟩
    · exact absurd (hall c0 hc0) (not_le_of_lt hpos)
    · have hhc : highestCategory cats = c := heq
      rw [hhc]
      exact ⟨pre, post, hsplit, hpre, hpost⟩
  · intro hz
    rcases foldl_highest cats ⟨"N/A", 0⟩ with ⟨heq, hall⟩ | ⟨pre, c, post, hsplit, heq, hic, hpre, hpost⟩
    · exact heq
    · exfalso
      have hcmem : c ∈ cats := by
        rw [hsplit]
        exact List.mem_append_right pre (List.mem_cons_self c post)
      have : c.amount = 0 := hz c hcmem
      rw [this] at hic
      exact lt_irrefl 0 hic

/-- Witness for C7 (amended) at a concrete input. -/
theorem highestCategory_firstMax_witness :
    (∀ c ∈ ([⟨"Food", 50⟩, ⟨"Rent", 50⟩] : List Category), 0 ≤ c.amount) ∧
    (((∃ c ∈ ([⟨"Food", 50⟩, ⟨"Rent", 50⟩] : List Category), 0 < c.amount) →
        IsFirstMax (highestCategory [⟨"Food", 50⟩, ⟨"Rent", 50⟩])
          [⟨"Food", 50⟩, ⟨"Rent", 50⟩]) ∧
      ((∀ c ∈ ([⟨"Food", 50⟩, ⟨"Rent", 50⟩] : List Category), c.amount = 0) →
        highestCategory [⟨"Food", 50⟩, ⟨"Rent", 50⟩] = ⟨"N/A", 0⟩)) :=
  ⟨by decide, highestCategory_firstMax _ (by decide)⟩

theorem numOrD_num_of_ne (q d : ℚ) (h : q ≠ 0) : numOrD (.num q) d = q := by
  simp [numOrD, jsToNumber, h]

theorem numOrD_num_zero (q : ℚ) : numOrD (.num q) 0 = q := by
  by_cases h : q = 0 <;> simp [numOrD, jsToNumber, h]

/-- C5: normalizeSnapshot returns null exactly on non-objects; on objects
its categories are the category entries coerced (trimmed stringified name,
entries with empty resulting name dropped, amount coerced number-or-0),
with a non-array categories field yielding the empty list; and the
spec example with name " Food " and amount "50" normalizes to
{name:"Food", amount:50}. -/
theorem normalizeSnapshot_shape (freshId : String) (now : ℚ) (v : JSValue) :
    (normalizeSnapshot freshId now v = none ↔ isJsObject v = false) ∧
    (∀ s, normalizeSnapshot freshId now v = some s →
      s.categories =
        match getField v "categories" with
        | .arr cs => (cs.map normalizeCategoryEntry).filter (fun c => c.name ≠ "")
        | _ => []) ∧
    ((normalizeSnapshot freshId now
        (.obj [("categories",
          .arr [.obj [("name", .str " Food "), ("amount", .str "50")]])])).map
      (fun s => s.categories)) = some [⟨"Food", 50⟩] := by
  refine ⟨?_, ?_, rfl⟩
  · cases v <;> simp [normalizeSnapshot, truthy, jsTypeof, isJsObject]
  · intro s h
    cases v with
    | arr es =>
      rw [normalizeSnapshot] at h
      simp only [truthy, jsTypeof, not_true, ne_eq, or_self, if_false] at h
      rcases Option.some.injEq .. ▸ h with rfl
      rfl
    | obj fs =>
      rw [normalizeSnapshot] at h
      simp only [truthy, jsTypeof, not_true, ne_eq, or_self, if_false] at h
      rcases Option.some.injEq .. ▸ h with rfl
      rfl
    | null => simp [normalizeSnapshot, truthy, jsTypeof] at h
    | undefined => simp [normalizeSnapshot, truthy, jsTypeof] at h
    | nan => simp [normalizeSnapshot, truthy, jsTypeof] at h
    | bool b => simp [normalizeSnapshot, truthy, jsTypeof] at h
    | num q => simp [normalizeSnapshot, truthy, jsTypeof] at h
    | str t => simp [normalizeSnapshot, truthy, jsTypeof] at h

/-- Witness for C5 at a concrete object input. -/
theorem normalizeSnapshot_shape_witness :
    (normalizeSnapshot "f" 3 (.obj [("month", .str "2024-05")]) = none ↔
      isJsObject (.obj [("month", .str "2024-05")]) = false) ∧
    (∀ s, normalizeSnapshot "f" 3 (.obj [("month", .str "2024-05")]) = some s →
      s.categories =
        match getField (.obj [("month", .str "2024-05")]) "categories" with
        | .arr cs => (cs.map normalizeCategoryEntry).filter (fun c => c.name ≠ "")
        | _ => []) ∧
    ((normalizeSnapshot "f" 3
        (.obj [("categories",
          .arr [.obj [("name", .str " Food "), ("amount", .str "50")]])])).map
      (fun s => s.categories)) = some [⟨"Food", 50⟩] :=
  normalizeSnapshot_shape "f" 3 (.obj [("month", .str "2024-05")])

theorem normalizeCategoryEntry_roundTrip (c : Category)
    (htrim : jsTrim c.name = c.name) (hne : c.name ≠ "") :
    normalizeCategoryEntry (categoryToJS c) = c := by
  obtain ⟨n, a⟩ := c
  simp only at htrim hne
  have hname : getField (categoryToJS ⟨n, a⟩) "name" = .str n := rfl
  have hamount : getField (categoryToJS ⟨n, a⟩) "amount" = .num a := rfl
  simp [normalizeCategoryEntry, hname, hamount, truthy, hne, jsToString, htrim,
    numOrD_num_zero]

theorem map_normalizeCategoryEntry_roundTrip (cats : List Category)
    (hcats : ∀ c ∈ cats, jsTrim c.name = c.name ∧ c.name ≠ "") :
    ((cats.map categoryToJS).map normalizeCategoryEntry).filter
      (fun c => c.name ≠ "") = cats := by
  rw [List.map_map]
  have hmap : cats.map (normalizeCategoryEntry ∘ categoryToJS) = cats := by
    induction cats with
    | nil => rfl
    | cons c cs ih =>
      have hc := hcats c (List.mem_cons_self c cs)
      have hcs : ∀ x ∈ cs, jsTrim x.name = x.name ∧ x.name ≠ "" := fun x hx =>
        hcats x (List.mem_cons_of_mem c hx)
      simp only [List.map_cons, Function.comp_apply,
        normalizeCategoryEntry_roundTrip c hc.1 hc.2, List.cons.injEq, true_and]
      exact ih hcs
  rw [hmap]
  apply List.filter_eq_self.mpr
  intro c hc
  exact decide_eq_true (hcats c hc).2

/-- C6 counterexample: a record that is well-formed in the claim sense
(non-empty id, YYYY-MM month, numeric fields, integer createdAt, trimmed
non-empty category names) with createdAt = 0 does not round-trip: the
normalizer treats the falsy createdAt as missing and replaces it with the
current time. -/
theorem normalizeSnapshot_roundTrip_cex :
    (("id1" : String) ≠ "" ∧
      (∀ c ∈ ([⟨"Food", 50⟩] : List Category), jsTrim c.name = c.name ∧ c.name ≠ "") ∧
      ((0 : ℚ).den = 1)) ∧
    normalizeSnapshot "fresh" 1
        (snapshotToJS ⟨"id1", "2024-01", 100, 10, [⟨"Food", 50⟩], 50, 50, 50, 0⟩)
      ≠ some ⟨"id1", "2024-01", 100, 10, [⟨"Food", 50⟩], 50, 50, 50, 0⟩ := by
  decide

/-- C6 (amended): normalization round-trips well-formed snapshot records
losslessly provided createdAt is a nonzero integer timestamp (createdAt = 0
is falsy and is replaced by the current time). -/
theorem normalizeSnapshot_roundTrip (freshId : String) (now : ℚ) (s : Snapshot)
    (hid : s.id ≠ "")
    (hcats : ∀ c ∈ s.categories, jsTrim c.name = c.name ∧ c.name ≠ "")
    (hden : s.createdAt.den = 1) (hnz : s.createdAt ≠ 0) :
    normalizeSnapshot freshId now (snapshotToJS s) = some s := by
  obtain ⟨sid, smonth, sinc, stgt, scats, stot, ssav, srate, screated⟩ := s
  simp only [ne_eq] at hid hnz
  have hcatlist :
      ((scats.map categoryToJS).map normalizeCategoryEntry).filter
        (fun c => c.name ≠ "") = scats :=
    map_normalizeCategoryEntry_roundTrip scats hcats
  have hguard : ¬ (¬ truthy (snapshotToJS ⟨sid, smonth, sinc, stgt, scats, stot, ssav, srate, screated⟩) = true ∨
      jsTypeof (snapshotToJS ⟨sid, smonth, sinc, stgt, scats, stot, ssav, srate, screated⟩) ≠ "object") := by
    simp [snapshotToJS, truthy, jsTypeof]
  rw [normalizeSnapshot, if_neg hguard]
  refine congrArg some ?_
  have hidfield : (if sid ≠ "" then sid else freshId) = sid := if_pos hid
  simp only [Snapshot.mk.injEq]
  refine ⟨?_, rfl, ?_, ?_, ?_, ?_, ?_, ?_, ?_⟩
  · show (if sid ≠ "" then sid else freshId) = sid
    exact hidfield
  · exact numOrD_num_zero sinc
  · exact numOrD_num_zero stgt
  · exact hcatlist
  · exact numOrD_num_zero stot
  · exact numOrD_num_zero ssav
  · exact numOrD_num_zero srate
  · exact numOrD_num_of_ne screated now hnz

/-- Witness for C6 (amended) at a concrete well-formed record. -/
theorem normalizeSnapshot_roundTrip_witness :
    (("id1" : String) ≠ "" ∧
      (∀ c ∈ ([⟨"Food", 50⟩] : List Category), jsTrim c.name = c.name ∧ c.name ≠ "") ∧
      ((99 : ℚ).den = 1) ∧ ((99 : ℚ) ≠ 0)) ∧
    normalizeSnapshot "fresh" 1
        (snapshotToJS ⟨"id1", "2024-01", 100, 10, [⟨"Food", 50⟩], 50, 50, 50, 99⟩)
      = some ⟨"id1", "2024-01", 100, 10, [⟨"Food", 50⟩], 50, 50, 50, 99⟩ :=
  ⟨⟨by decide, by decide, by decide, by decide⟩,
    normalizeSnapshot_roundTrip "fresh" 1 _ (by decide) (by decide) (by decide) (by decide)⟩


theorem filterMap_id_filter (p : Snapshot → Bool) (l : List (Option Snapshot)) :
    (l.filterMap id).filter p = l.filterMap (fun o => Option.filter p o) := by
  induction l with
  | nil => rfl
  | cons o os ih =>
    cases o with
    | none => simpa [Option.filter] using ih
    | some s =>
      by_cases h : p s <;> simp [Option.filter, h, ih]

/-- C3: load returns the empty collection when the blob is absent; when the
blob is present but not a sequence it resets the blob to the empty array
and returns the empty collection; when the blob is a sequence, elements
that normalize to null or to an empty month are dropped and all other
normalized elements are returned. -/
theorem loadHistoryFromStorage_spec (fid : ℕ → String) (now : ℚ) :
    loadHistoryFromStorage fid now .absent = ([], .absent) ∧
    loadHistoryFromStorage fid now .unparseable = ([], .value (.arr [])) ∧
    (∀ elems, loadHistoryFromStorage fid now (.value (.arr elems)) =
      (elems.enum.filterMap (fun q =>
        Option.filter (fun s => s.month ≠ "") (normalizeSnapshot (fid q.1) now q.2)),
       .value (.arr elems))) ∧
    (∀ v, isJsArray v = false →
      loadHistoryFromStorage fid now (.value v) = ([], .value (.arr []))) := by
  refine ⟨rfl, rfl, ?_, ?_⟩
  · intro elems
    show (((elems.enum.map (fun q => normalizeSnapshot (fid q.1) now q.2)).filterMap
        id).filter (fun s => s.month ≠ ""), (.value (.arr elems) : StoredBlob)) = _
    rw [filterMap_id_filter, List.filterMap_map]
    rfl
  · intro v hv
    cases v with
    | arr es => simp [isJsArray] at hv
    | null => rfl
    | undefined => rfl
    | nan => rfl
    | bool b => rfl
    | num q => rfl
    | str t => rfl
    | obj fs => rfl

/-- Witness for C3: loading a non-sequence blob value at a concrete input. -/
theorem loadHistoryFromStorage_spec_witness :
    isJsArray (.str "not an array") = false ∧
    loadHistoryFromStorage (fun _ => "x") 0 (.value (.str "not an array"))
      = ([], .value (.arr [])) :=
  ⟨by decide,
    (loadHistoryFromStorage_spec (fun _ => "x") 0).2.2.2 (.str "not an array") (by decide)⟩

/-- C9: the Trend Projector returns one (month, savings) pair per snapshot
(the empty sequence exactly when the history is empty), obtained from the
history sorted by month ascending with ties broken by createdAt ascending;
it imposes no minimum cardinality. -/
theorem trendData_spec (history : List Snapshot) :
    ∃ sorted : List Snapshot,
      List.Perm sorted history ∧
      sorted.Pairwise (fun a b => trendLe a b = true) ∧
      trendData history = sorted.map (fun s => (s.month, s.savings)) ∧
      (trendData history).length = history.length ∧
      (trendData history = [] ↔ history = []) := by
  have hlen : (trendData history).length = history.length := by
    rw [trendData, List.length_map, (stableSort_perm trendLe history).length_eq]
  refine ⟨stableSort trendLe history, stableSort_perm trendLe history,
    stableSort_pairwise trendLe trendLe_total trendLe_trans history, rfl, hlen, ?_, ?_⟩
  · intro h
    have h0 : history.length = 0 := by rw [← hlen, h]; rfl
    exact List.eq_nil_of_length_eq_zero h0
  · intro h
    subst h
    rfl


/-- C8: a save attempt with an empty selected month, with validation
warnings present, or where the caller declines the duplicate-month
overwrite confirmation leaves the history collection unchanged (the
persisted blob is re-serialized from that unchanged collection) and, the
function being total, raises no error. -/
theorem handleSaveSnapshot_rejections (selectedMonth income targetSavings : String)
    (categories : List SessionCategory) (freshId : String) (now : ℚ)
    (history : List Snapshot) :
    (selectedMonth = "" → ∀ confirm,
      handleSaveSnapshot selectedMonth income targetSavings categories confirm freshId now
        history = history) ∧
    (validationErrors income targetSavings categories ≠ [] → ∀ confirm,
      handleSaveSnapshot selectedMonth income targetSavings categories confirm freshId now
        history = history) ∧
    (∀ existing, history.find? (fun s => s.month = selectedMonth) = some existing →
      handleSaveSnapshot selectedMonth income targetSavings categories false freshId now
        history = history) := by
  refine ⟨?_, ?_, ?_⟩
  · intro h confirm
    simp [handleSaveSnapshot, h]
  · intro herr confirm
    by_cases hm : selectedMonth = ""
    · simp [handleSaveSnapshot, hm]
    · simp [handleSaveSnapshot, hm, herr]
  · intro existing hex
    by_cases hm : selectedMonth = ""
    · simp [handleSaveSnapshot, hm]
    · by_cases herr : validationErrors income targetSavings categories = []
      · simp [handleSaveSnapshot, hm, herr, hex]
      · simp [handleSaveSnapshot, hm, herr]

/-- Witness for C8: the three rejection branches at concrete inputs. -/
theorem handleSaveSnapshot_rejections_witness :
    (("" : String) = "" ∧
      handleSaveSnapshot "" "5" "" [] true "f" 0 [] = []) ∧
    (validationErrors "-5" "" [] ≠ [] ∧
      handleSaveSnapshot "2024-01" "-5" "" [] true "f" 0 [] = []) ∧
    (([⟨"a", "2024-01", 0, 0, [], 0, 0, 0, 1⟩] : List Snapshot).find?
        (fun s => s.month = "2024-01")
        = some (⟨"a", "2024-01", 0, 0, [], 0, 0, 0, 1⟩ : Snapshot) ∧
      handleSaveSnapshot "2024-01" "" "" [] false "f" 0
          [⟨"a", "2024-01", 0, 0, [], 0, 0, 0, 1⟩]
        = [⟨"a", "2024-01", 0, 0, [], 0, 0, 0, 1⟩]) :=
  ⟨⟨rfl, (handleSaveSnapshot_rejections "" "5" "" [] "f" 0 []).1 rfl true⟩,
   ⟨by decide, (handleSaveSnapshot_rejections "2024-01" "-5" "" [] "f" 0 []).2.1 (by decide) true⟩,
   ⟨by decide, (handleSaveSnapshot_rejections "2024-01" "" "" [] "f" 0
      [⟨"a", "2024-01", 0, 0, [], 0, 0, 0, 1⟩]).2.2
      (⟨"a", "2024-01", 0, 0, [], 0, 0, 0, 1⟩ : Snapshot) (by decide)⟩⟩

theorem updateCategoryAmount_map_name (index : ℕ) (value : String)
    (l : List SessionCategory) :
    (updateCategoryAmount index value l).map (fun c => c.name)
      = l.map (fun c => c.name) := by
  induction l generalizing index with
  | nil => cases index <;> rfl
  | cons c cs ih =>
    cases index with
    | zero => rfl
    | succ i => simp [updateCategoryAmount, ih i]

theorem removeCategory_sublist (index : ℕ) (l : List SessionCategory) :
    (removeCategory index l).Sublist l := by
  induction l generalizing index with
  | nil => cases index <;> exact List.Sublist.refl _
  | cons c cs ih =>
    cases index with
    | zero => exact List.Sublist.cons c (List.Sublist.refl cs)
    | succ i => exact List.Sublist.cons₂ c (ih i)

/-- C10: the session category operations preserve the invariant that no
two category names are equal up to case: addCategory is the identity on an
empty trimmed name or a case-insensitive duplicate and otherwise appends a
fresh name, updateCategoryAmount never changes any name, and
removeCategory only removes entries. -/
theorem categoryListOps_invariant (categories : List SessionCategory) :
    (∀ newCategory, jsTrim newCategory = "" →
      addCategory newCategory categories = categories) ∧
    (∀ newCategory,
      (∃ c ∈ categories, jsToLower c.name = jsToLower (jsTrim newCategory)) →
      addCategory newCategory categories = categories) ∧
    (∀ newCategory, (categories.map (fun c => jsToLower c.name)).Nodup →
      ((addCategory newCategory categories).map (fun c => jsToLower c.name)).Nodup) ∧
    (∀ index value,
      (updateCategoryAmount index value categories).map (fun c => c.name)
        = categories.map (fun c => c.name)) ∧
    (∀ index value, (categories.map (fun c => jsToLower c.name)).Nodup →
      ((updateCategoryAmount index value categories).map
        (fun c => jsToLower c.name)).Nodup) ∧
    (∀ index, (removeCategory index categories).Sublist categories) ∧
    (∀ index, (categories.map (fun c => jsToLower c.name)).Nodup →
      ((removeCategory index categories).map (fun c => jsToLower c.name)).Nodup) := by
  have hcomp : ∀ l : List SessionCategory,
      l.map (fun c => jsToLower c.name) = (l.map (fun c => c.name)).map jsToLower := by
    intro l
    rw [List.map_map]
    rfl
  refine ⟨?_, ?_, ?_, fun i v => updateCategoryAmount_map_name i v categories, ?_,
    fun i => removeCategory_sublist i categories, ?_⟩
  · intro nc h
    simp [addCategory, h]
  · intro nc hex
    by_cases h1 : jsTrim nc = ""
    · simp [addCategory, h1]
    · rcases hex with ⟨c, hc, heq⟩
      have hany : categories.any
          (fun category => jsToLower category.name = jsToLower (jsTrim nc)) = true :=
        List.any_eq_true.mpr ⟨c, hc, decide_eq_true heq⟩
      simp [addCategory, h1, hany]
  · intro nc h
    by_cases h1 : jsTrim nc = ""
    · simpa [addCategory, h1] using h
    · by_cases h2 : categories.any
          (fun category => jsToLower category.name = jsToLower (jsTrim nc)) = true
      · simpa [addCategory, h1, h2] using h
      · have hnotin : ∀ c ∈ categories, ¬ jsToLower c.name = jsToLower (jsTrim nc) := by
          intro c hc heq
          exact h2 (List.any_eq_true.mpr ⟨c, hc, decide_eq_true heq⟩)
        have hres : addCategory nc categories
            = categories ++ [{ name := jsTrim nc, amount := "" }] := by
          simp [addCategory, h1, h2]
        rw [hres, List.map_append]
        refine List.Nodup.append h (List.nodup_singleton _) ?_
        intro a ha hb
        simp only [List.map_cons, List.map_nil, List.mem_singleton] at hb
        rcases List.mem_map.mp ha with ⟨c, hc, hceq⟩
        exact hnotin c hc (by rw [hceq, hb])
  · intro idx v h
    rw [hcomp, updateCategoryAmount_map_name idx v categories, ← hcomp]
    exact h
  · intro idx h
    exact List.Nodup.sublist
      (List.Sublist.map _ (removeCategory_sublist idx categories)) h

/-- Witness for C10 at concrete inputs: rejected duplicate (case
difference only), rejected blank, and append of a fresh name. -/
theorem categoryListOps_invariant_witness :
    (jsTrim "   " = "" ∧
      addCategory "   " [⟨"Food", "1"⟩, ⟨"Rent", ""⟩] = [⟨"Food", "1"⟩, ⟨"Rent", ""⟩]) ∧
    ((∃ c ∈ ([⟨"Food", "1"⟩, ⟨"Rent", ""⟩] : List SessionCategory),
        jsToLower c.name = jsToLower (jsTrim " FOOD ")) ∧
      addCategory " FOOD " [⟨"Food", "1"⟩, ⟨"Rent", ""⟩] = [⟨"Food", "1"⟩, ⟨"Rent", ""⟩]) ∧
    ((([⟨"Food", "1"⟩, ⟨"Rent", ""⟩] : List SessionCategory).map
        (fun c => jsToLower c.name)).Nodup ∧
      ((addCategory "Gym" [⟨"Food", "1"⟩, ⟨"Rent", ""⟩]).map
        (fun c => jsToLower c.name)).Nodup) :=
  ⟨⟨by decide, (categoryListOps_invariant [⟨"Food", "1"⟩, ⟨"Rent", ""⟩]).1 "   " (by decide)⟩,
   ⟨⟨⟨"Food", "1"⟩, by decide, by decide⟩,
     (categoryListOps_invariant [⟨"Food", "1"⟩, ⟨"Rent", ""⟩]).2.1 " FOOD " ⟨⟨"Food", "1"⟩, by decide, by decide⟩⟩,
   ⟨by decide, (categoryListOps_invariant [⟨"Food", "1"⟩, ⟨"Rent", ""⟩]).2.2.1 "Gym" (by decide)⟩⟩


theorem map_replace_of_no_id {l : List Snapshot} {tid : String} {snap : Snapshot}
    (h : ∀ e ∈ l, e.id ≠ tid) :
    l.map (fun e => if e.id = tid then snap else e) = l := by
  induction l with
  | nil => rfl
  | cons b bs ih =>
    have hb : b.id ≠ tid := h b (List.mem_cons_self b bs)
    have hbs : ∀ e ∈ bs, e.id ≠ tid := fun e he => h e (List.mem_cons_of_mem b he)
    simp [hb, ih hbs]

theorem map_replace_perm (snap : Snapshot) :
    ∀ (l : List Snapshot), (l.map (fun s => s.id)).Nodup → ∀ existing, existing ∈ l →
      List.Perm (l.map (fun e => if e.id = existing.id then snap else e))
        (snap :: l.erase existing) := by
  intro l
  induction l with
  | nil =>
    intro _ existing hmem
    exact absurd hmem (List.not_mem_nil existing)
  | cons b bs ih =>
    intro hnodup existing hmem
    have hhead : b.id ∉ bs.map (fun s => s.id) := (List.nodup_cons.mp hnodup).1
    have htail : (bs.map (fun s => s.id)).Nodup := (List.nodup_cons.mp hnodup).2
    rcases List.mem_cons.mp hmem with rfl | hmem
    · have hbs : ∀ e ∈ bs, e.id ≠ existing.id := by
        intro e he heq
        exact hhead (heq ▸ List.mem_map_of_mem (fun s => s.id) he)
      simp only [List.map_cons, if_pos rfl, map_replace_of_no_id hbs,
        List.erase_cons_head]
      exact List.Perm.refl _
    · have hbne : b.id ≠ existing.id := by
        intro heq
        exact hhead (heq ▸ List.mem_map_of_mem (fun s => s.id) hmem)
      have hbneq : b ≠ existing := fun h => hbne (congrArg Snapshot.id h)
      have herase : (b :: bs).erase existing = b :: bs.erase existing := by
        rw [List.erase_cons_tail]
        simp [hbneq]
      rw [herase]
      simp only [List.map_cons, if_neg hbne]
      exact ((ih htail existing hmem).cons b).trans (List.Perm.swap snap b _)


/-- C4 counterexample: loading a persisted blob holding two records with the
same month yields a collection in which two snapshots share a month — the
loader does not deduplicate, so the claimed invariant fails for histories
produced by load() from an arbitrary blob. -/
theorem history_months_nodup_cex :
    ¬ (((loadHistoryFromStorage (fun _ => "x") 0
        (.value (.arr [.obj [("month", .str "2024-01")],
                       .obj [("month", .str "2024-01")]]))).1.map
      (fun s => s.month)).Nodup) := by
  decide

/-- C4 (amended): on a history whose snapshots have pairwise-distinct
months and pairwise-distinct ids, every save (with a fresh generated id),
delete and clear operation preserves both distinctness properties; load()
from an arbitrary blob need not establish the months invariant. -/
theorem history_invariant_preserved (history : List Snapshot)
    (hm : (history.map (fun s => s.month)).Nodup)
    (hi : (history.map (fun s => s.id)).Nodup) :
    (∀ selectedMonth income targetSavings categories confirm freshId now,
      freshId ∉ history.map (fun s => s.id) →
      ((handleSaveSnapshot selectedMonth income targetSavings categories confirm freshId
          now history).map (fun s => s.month)).Nodup ∧
      ((handleSaveSnapshot selectedMonth income targetSavings categories confirm freshId
          now history).map (fun s => s.id)).Nodup) ∧
    (∀ snapshotId,
      ((handleDeleteSnapshot snapshotId history).map (fun s => s.month)).Nodup ∧
      ((handleDeleteSnapshot snapshotId history).map (fun s => s.id)).Nodup) ∧
    (∀ confirm,
      ((handleClearHistory confirm history).map (fun s => s.month)).Nodup ∧
      ((handleClearHistory confirm history).map (fun s => s.id)).Nodup) := by
  refine ⟨?_, ?_, ?_⟩
  · intro selectedMonth income targetSavings categories confirm freshId now hfresh
    by_cases hmn : selectedMonth = ""
    · simp only [handleSaveSnapshot, if_pos hmn]
      exact ⟨hm, hi⟩
    · by_cases herr : validationErrors income targetSavings categories = []
      · cases hfind : history.find? (fun snapshot => snapshot.month = selectedMonth) with
        | some existing =>
          have hexmem : existing ∈ history := List.mem_of_find?_eq_some hfind
          have hexmonth : existing.month = selectedMonth := by
            have h1 := List.find?_some hfind
            simpa using h1
          cases confirm with
          | false =>
            simp only [handleSaveSnapshot, hmn, herr, hfind, if_neg, ite_false,
              reduceIte, ne_eq, not_true_eq_false, not_false_eq_true]
            simp [hmn, herr]
            exact ⟨hm, hi⟩
          | true =>
            have hmonths : ((history.map (fun e =>
                if e.id = existing.id then
                  builtSnapshot existing.id selectedMonth income targetSavings categories
                    now
                else e)).map (fun s => s.month)) = history.map (fun s => s.month) := by
              rw [List.map_map]
              apply List.map_congr_left
              intro e he
              by_cases hid : e.id = existing.id
              · have heq : e = existing := List.inj_on_of_nodup_map hi he hexmem hid
                simp [Function.comp, hid, builtSnapshot, heq ▸ hexmonth]
              · simp [Function.comp, hid]
            have hids : ((history.map (fun e =>
                if e.id = existing.id then
                  builtSnapshot existing.id selectedMonth income targetSavings categories
                    now
                else e)).map (fun s => s.id)) = history.map (fun s => s.id) := by
              rw [List.map_map]
              apply List.map_congr_left
              intro e he
              by_cases hid : e.id = existing.id
              · simp [Function.comp, hid, builtSnapshot]
              · simp [Function.comp, hid]
            have hres : handleSaveSnapshot selectedMonth income targetSavings categories
                true freshId now history
              = stableSort byMostRecentMonthLe (history.map (fun e =>
                  if e.id = existing.id then
                    builtSnapshot existing.id selectedMonth income targetSavings
                      categories now
                  else e)) := by
              simp [handleSaveSnapshot, hmn, herr, hfind]
            rw [hres]
            have hperm := stableSort_perm byMostRecentMonthLe
              (history.map (fun e =>
                if e.id = existing.id then
                  builtSnapshot existing.id selectedMonth income targetSavings categories
                    now
                else e))
            constructor
            · exact ((hperm.map (fun s => s.month)).nodup_iff).mpr (hmonths ▸ hm)
            · exact ((hperm.map (fun s => s.id)).nodup_iff).mpr (hids ▸ hi)
        | none =>
          have hnomem : ∀ x ∈ history, x.month ≠ selectedMonth := by
            intro x hx hxeq
            exact absurd (decide_eq_true hxeq) (List.find?_eq_none.mp hfind x hx)
          have hres : handleSaveSnapshot selectedMonth income targetSavings categories
              confirm freshId now history
            = stableSort byMostRecentMonthLe
                (builtSnapshot freshId selectedMonth income targetSavings categories now
                  :: history) := by
            simp [handleSaveSnapshot, hmn, herr, hfind]
          rw [hres]
          have hperm := stableSort_perm byMostRecentMonthLe
            (builtSnapshot freshId selectedMonth income targetSavings categories now
              :: history)
          constructor
          · refine ((hperm.map (fun s => s.month)).nodup_iff).mpr ?_
            refine List.nodup_cons.mpr ⟨?_, hm⟩
            intro hmem
            rcases List.mem_map.mp hmem with ⟨x, hx, hxeq⟩
            exact hnomem x hx (hxeq.trans rfl)
          · refine ((hperm.map (fun s => s.id)).nodup_iff).mpr ?_
            exact List.nodup_cons.mpr ⟨hfresh, hi⟩
      · simp only [handleSaveSnapshot]
        simp [hmn, herr]
        exact ⟨hm, hi⟩
  · intro snapshotId
    have hsub : (handleDeleteSnapshot snapshotId history).Sublist history :=
      List.filter_sublist history
    exact ⟨List.Nodup.sublist (hsub.map _) hm, List.Nodup.sublist (hsub.map _) hi⟩
  · intro confirm
    by_cases h0 : history = []
    · simp [handleClearHistory, h0]
    · cases confirm with
      | true => simp [handleClearHistory, h0]
      | false =>
        simp only [handleClearHistory, if_neg h0, if_false, Bool.false_eq_true]
        exact ⟨hm, hi⟩

/-- Witness for C4 (amended) on a concrete two-snapshot history. -/
theorem history_invariant_preserved_witness :
    ((([⟨"a", "2024-01", 0, 0, [], 0, 0, 0, 1⟩, ⟨"b", "2024-02", 0, 0, [], 0, 0, 0, 2⟩]
        : List Snapshot).map (fun s => s.month)).Nodup ∧
      (([⟨"a", "2024-01", 0, 0, [], 0, 0, 0, 1⟩, ⟨"b", "2024-02", 0, 0, [], 0, 0, 0, 2⟩]
        : List Snapshot).map (fun s => s.id)).Nodup) ∧
    ((∀ selectedMonth income targetSavings categories confirm freshId now,
      freshId ∉ ([⟨"a", "2024-01", 0, 0, [], 0, 0, 0, 1⟩,
          ⟨"b", "2024-02", 0, 0, [], 0, 0, 0, 2⟩] : List Snapshot).map (fun s => s.id) →
      ((handleSaveSnapshot selectedMonth income targetSavings categories confirm freshId
          now [⟨"a", "2024-01", 0, 0, [], 0, 0, 0, 1⟩,
            ⟨"b", "2024-02", 0, 0, [], 0, 0, 0, 2⟩]).map (fun s => s.month)).Nodup ∧
      ((handleSaveSnapshot selectedMonth income targetSavings categories confirm freshId
          now [⟨"a", "2024-01", 0, 0, [], 0, 0, 0, 1⟩,
            ⟨"b", "2024-02", 0, 0, [], 0, 0, 0, 2⟩]).map (fun s => s.id)).Nodup) ∧
    (∀ snapshotId,
      ((handleDeleteSnapshot snapshotId [⟨"a", "2024-01", 0, 0, [], 0, 0, 0, 1⟩,
          ⟨"b", "2024-02", 0, 0, [], 0, 0, 0, 2⟩]).map (fun s => s.month)).Nodup ∧
      ((handleDeleteSnapshot snapshotId [⟨"a", "2024-01", 0, 0, [], 0, 0, 0, 1⟩,
          ⟨"b", "2024-02", 0, 0, [], 0, 0, 0, 2⟩]).map (fun s => s.id)).Nodup) ∧
    (∀ confirm,
      ((handleClearHistory confirm [⟨"a", "2024-01", 0, 0, [], 0, 0, 0, 1⟩,
          ⟨"b", "2024-02", 0, 0, [], 0, 0, 0, 2⟩]).map (fun s => s.month)).Nodup ∧
      ((handleClearHistory confirm [⟨"a", "2024-01", 0, 0, [], 0, 0, 0, 1⟩,
          ⟨"b", "2024-02", 0, 0, [], 0, 0, 0, 2⟩]).map (fun s => s.id)).Nodup)) :=
  ⟨⟨by decide, by decide⟩,
    history_invariant_preserved _ (by decide) (by decide)⟩


/-- C2 counterexample: on a history in which two snapshots already share a
month (a state load() can produce from a duplicated blob), a confirmed
save for that month retains two snapshots for it, not exactly one — the
overwrite replaces by id and leaves the second same-month snapshot in
place. -/
theorem handleSaveSnapshot_upsert_cex :
    ¬ ((handleSaveSnapshot "2024-01" "" "" [] true "f" 9
        [⟨"a", "2024-01", 0, 0, [], 0, 0, 0, 1⟩,
         ⟨"b", "2024-01", 0, 0, [], 0, 0, 0, 2⟩]).countP
      (fun s => s.month = "2024-01") = 1) := by
  decide

/-- C2 (amended): on a history whose snapshots have pairwise-distinct
months and pairwise-distinct ids, saving with a non-empty month and no
validation warnings behaves as an upsert: a confirmed save for an existing
month retains exactly one snapshot for that month — the newly built
snapshot carrying the existing id — and preserves every other snapshot;
a save for a month not yet present adds the newly built snapshot under the
fresh id and preserves every existing snapshot. -/
theorem handleSaveSnapshot_upsert (history : List Snapshot)
    (selectedMonth income targetSavings : String) (categories : List SessionCategory)
    (freshId : String) (now : ℚ)
    (hm : (history.map (fun s => s.month)).Nodup)
    (hi : (history.map (fun s => s.id)).Nodup)
    (hmonth : selectedMonth ≠ "")
    (herr : validationErrors income targetSavings categories = []) :
    (∀ existing, history.find? (fun s => s.month = selectedMonth) = some existing →
      List.Perm
        (handleSaveSnapshot selectedMonth income targetSavings categories true freshId
          now history)
        (builtSnapshot existing.id selectedMonth income targetSavings categories now
          :: history.erase existing) ∧
      (handleSaveSnapshot selectedMonth income targetSavings categories true freshId
        now history).countP (fun s => s.month = selectedMonth) = 1 ∧
      (∀ s ∈ handleSaveSnapshot selectedMonth income targetSavings categories true
          freshId now history, s.month = selectedMonth →
        s = builtSnapshot existing.id selectedMonth income targetSavings categories
          now)) ∧
    (history.find? (fun s => s.month = selectedMonth) = none → ∀ confirm,
      List.Perm
        (handleSaveSnapshot selectedMonth income targetSavings categories confirm
          freshId now history)
        (builtSnapshot freshId selectedMonth income targetSavings categories now
          :: history) ∧
      (handleSaveSnapshot selectedMonth income targetSavings categories confirm freshId
        now history).countP (fun s => s.month = selectedMonth) = 1 ∧
      (∀ s ∈ handleSaveSnapshot selectedMonth income targetSavings categories confirm
          freshId now history, s.month = selectedMonth →
        s = builtSnapshot freshId selectedMonth income targetSavings categories now)) := by
  have helems : history.Nodup := hm.of_map _
  constructor
  · intro existing hfind
    have hexmem : existing ∈ history := List.mem_of_find?_eq_some hfind
    have hexmonth : existing.month = selectedMonth := by
      have h1 := List.find?_some hfind
      simpa using h1
    have hres : handleSaveSnapshot selectedMonth income targetSavings categories true
        freshId now history
      = stableSort byMostRecentMonthLe (history.map (fun e =>
          if e.id = existing.id then
            builtSnapshot existing.id selectedMonth income targetSavings categories now
          else e)) := by
      simp [handleSaveSnapshot, hmonth, herr, hfind]
    have hperm : List.Perm
        (handleSaveSnapshot selectedMonth income targetSavings categories true freshId
          now history)
        (builtSnapshot existing.id selectedMonth income targetSavings categories now
          :: history.erase existing) := by
      rw [hres]
      exact (stableSort_perm byMostRecentMonthLe _).trans
        (map_replace_perm _ history hi existing hexmem)
    have hnm : ∀ e ∈ history.erase existing, e.month ≠ selectedMonth := by
      intro e he heq
      rcases (helems.mem_erase_iff).mp he with ⟨hne, hmem⟩
      exact hne (List.inj_on_of_nodup_map hm hmem hexmem (heq.trans hexmonth.symm))
    refine ⟨hperm, ?_, ?_⟩
    · rw [hperm.countP_eq, List.countP_cons]
      have hzero : (history.erase existing).countP
          (fun s => decide (s.month = selectedMonth)) = 0 := by
        apply List.countP_eq_zero.mpr
        intro e he
        simpa using hnm e he
      simp [hzero, builtSnapshot]
    · intro s hs hsm
      rcases List.mem_cons.mp ((hperm.mem_iff).mp hs) with rfl | hmem
      · rfl
      · exact absurd hsm (hnm s hmem)
  · intro hfind confirm
    have hnomem : ∀ x ∈ history, x.month ≠ selectedMonth := by
      intro x hx hxeq
      exact absurd (decide_eq_true hxeq) (List.find?_eq_none.mp hfind x hx)
    have hres : handleSaveSnapshot selectedMonth income targetSavings categories confirm
        freshId now history
      = stableSort byMostRecentMonthLe
          (builtSnapshot freshId selectedMonth income targetSavings categories now
            :: history) := by
      simp [handleSaveSnapshot, hmonth, herr, hfind]
    have hperm : List.Perm
        (handleSaveSnapshot selectedMonth income targetSavings categories confirm
          freshId now history)
        (builtSnapshot freshId selectedMonth income targetSavings categories now
          :: history) := by
      rw [hres]
      exact stableSort_perm byMostRecentMonthLe _
    refine ⟨hperm, ?_, ?_⟩
    · rw [hperm.countP_eq, List.countP_cons]
      have hzero : history.countP (fun s => decide (s.month = selectedMonth)) = 0 := by
        apply List.countP_eq_zero.mpr
        intro e he
        simpa using hnomem e he
      simp [hzero, builtSnapshot]
    · intro s hs hsm
      rcases List.mem_cons.mp ((hperm.mem_iff).mp hs) with rfl | hmem
      · rfl
      · exact absurd hsm (hnomem s hmem)

/-- Witness for C2 (amended): a confirmed overwrite on a concrete
two-snapshot history. -/
theorem handleSaveSnapshot_upsert_witness :
    ((([⟨"a", "2024-01", 0, 0, [], 0, 0, 0, 1⟩, ⟨"b", "2024-02", 0, 0, [], 0, 0, 0, 2⟩]
        : List Snapshot).map (fun s => s.month)).Nodup ∧
      (([⟨"a", "2024-01", 0, 0, [], 0, 0, 0, 1⟩, ⟨"b", "2024-02", 0, 0, [], 0, 0, 0, 2⟩]
        : List Snapshot).map (fun s => s.id)).Nodup ∧
      ("2024-01" : String) ≠ "" ∧
      validationErrors "700" "" [⟨"Food", "200"⟩] = []) ∧
    ((∀ existing, ([⟨"a", "2024-01", 0, 0, [], 0, 0, 0, 1⟩,
          ⟨"b", "2024-02", 0, 0, [], 0, 0, 0, 2⟩] : List Snapshot).find?
          (fun s => s.month = "2024-01") = some existing →
      List.Perm
        (handleSaveSnapshot "2024-01" "700" "" [⟨"Food", "200"⟩] true "f" 9
          [⟨"a", "2024-01", 0, 0, [], 0, 0, 0, 1⟩, ⟨"b", "2024-02", 0, 0, [], 0, 0, 0, 2⟩])
        (builtSnapshot existing.id "2024-01" "700" "" [⟨"Food", "200"⟩] 9
          :: ([⟨"a", "2024-01", 0, 0, [], 0, 0, 0, 1⟩,
              ⟨"b", "2024-02", 0, 0, [], 0, 0, 0, 2⟩] : List Snapshot).erase existing) ∧
      (handleSaveSnapshot "2024-01" "700" "" [⟨"Food", "200"⟩] true "f" 9
        [⟨"a", "2024-01", 0, 0, [], 0, 0, 0, 1⟩,
         ⟨"b", "2024-02", 0, 0, [], 0, 0, 0, 2⟩]).countP
        (fun s => s.month = "2024-01") = 1 ∧
      (∀ s ∈ handleSaveSnapshot "2024-01" "700" "" [⟨"Food", "200"⟩] true "f" 9
          [⟨"a", "2024-01", 0, 0, [], 0, 0, 0, 1⟩,
           ⟨"b", "2024-02", 0, 0, [], 0, 0, 0, 2⟩], s.month = "2024-01" →
        s = builtSnapshot existing.id "2024-01" "700" "" [⟨"Food", "200"⟩] 9)) ∧
    (([⟨"a", "2024-01", 0, 0, [], 0, 0, 0, 1⟩,
        ⟨"b", "2024-02", 0, 0, [], 0, 0, 0, 2⟩] : List Snapshot).find?
        (fun s => s.month = "2024-01") = none → ∀ confirm,
      List.Perm
        (handleSaveSnapshot "2024-01" "700" "" [⟨"Food", "200"⟩] confirm "f" 9
          [⟨"a", "2024-01", 0, 0, [], 0, 0, 0, 1⟩, ⟨"b", "2024-02", 0, 0, [], 0, 0, 0, 2⟩])
        (builtSnapshot "f" "2024-01" "700" "" [⟨"Food", "200"⟩] 9
          :: [⟨"a", "2024-01", 0, 0, [], 0, 0, 0, 1⟩,
              ⟨"b", "2024-02", 0, 0, [], 0, 0, 0, 2⟩]) ∧
      (handleSaveSnapshot "2024-01" "700" "" [⟨"Food", "200"⟩] confirm "f" 9
        [⟨"a", "2024-01", 0, 0, [], 0, 0, 0, 1⟩,
         ⟨"b", "2024-02", 0, 0, [], 0, 0, 0, 2⟩]).countP
        (fun s => s.month = "2024-01") = 1 ∧
      (∀ s ∈ handleSaveSnapshot "2024-01" "700" "" [⟨"Food", "200"⟩] confirm "f" 9
          [⟨"a", "2024-01", 0, 0, [], 0, 0, 0, 1⟩,
           ⟨"b", "2024-02", 0, 0, [], 0, 0, 0, 2⟩], s.month = "2024-01" →
        s = builtSnapshot "f" "2024-01" "700" "" [⟨"Food", "200"⟩] 9))) :=
  ⟨⟨by decide, by decide, by decide, by decide⟩,
    handleSaveSnapshot_upsert
      [⟨"a", "2024-01", 0, 0, [], 0, 0, 0, 1⟩, ⟨"b", "2024-02", 0, 0, [], 0, 0, 0, 2⟩]
      "2024-01" "700" "" [⟨"Food", "200"⟩] "f" 9
      (by decide) (by decide) (by decide) (by decide)⟩

end FinTrack
